import Mathlib

/-!
Shallow embedding of the rustext editor core (src/rustext/src/main.rs).
Strings are modelled as lists of Unicode scalar values; the filesystem and
terminal are abstracted: `save` takes a flag saying whether the underlying
I/O succeeds and returns what was written, `from_file` takes the file
contents directly.
-/

/-- The key codes `Cursor::move_cursor` handles: the four arrows plus the
`Char('a')`/`Char('d')` line-start/line-end commands. -/
inductive KeyCode
  | up | down | left | right | charA | charD
deriving DecidableEq

/-- `Line` (main.rs): one row of text (`row_content`) plus its tab-expanded
display form (`render`). -/
structure Line where
  row_content : List Char
  render : List Char
deriving DecidableEq, Inhabited, Repr

/-- The body of the `while index % 8 != 0` padding loop inside
`EditorRows::render_row`, with explicit fuel so the recursion is structural:
each iteration pushes one space and increments `index`. The loop runs at most
7 iterations (`index % 8` climbs to the next multiple of 8), so the fuel of 8
supplied by `padLoop` is never exhausted; `padLoop_closed_form` below proves
the exact result and that the guard is false on exit. -/
def padLoopGo : Nat → Nat → List Char × Nat
  | 0, index => ([], index)
  | fuel + 1, index =>
    if index % 8 ≠ 0 then
      let r := padLoopGo fuel (index + 1)
      (' ' :: r.1, r.2)
    else
      ([], index)

/-- The `while index % 8 != 0` padding loop of `EditorRows::render_row`:
returns the pushed spaces and the final index. -/
def padLoop (index : Nat) : List Char × Nat := padLoopGo 8 index

/-- The per-character loop of `EditorRows::render_row`: `index` is incremented
first; a tab pushes one space then pads via `padLoop`; any other character is
pushed as-is. -/
def renderLoop : List Char → Nat → List Char
  | [], _ => []
  | c :: rest, index =>
    if c = '\t' then
      let p := padLoop (index + 1)
      ' ' :: (p.1 ++ renderLoop rest p.2)
    else
      c :: renderLoop rest (index + 1)

/-- `EditorRows::render_row`: recompute `render` from `row_content`. -/
def render_row (row : Line) : Line :=
  { row with render := renderLoop row.row_content 0 }

/-- `Line::insert_char`: insert `ch` at position `a`, then re-render. -/
def Line.insert_char (l : Line) (a : Nat) (ch : Char) : Line :=
  render_row { l with row_content := l.row_content.insertIdx a ch }

/-- `Line::delete_char`: remove the character at position `a`, then
re-render. -/
def Line.delete_char (l : Line) (a : Nat) : Line :=
  render_row { l with row_content := l.row_content.eraseIdx a }

/-- `EditorRows` (main.rs): the ordered rows plus the optional file name. -/
structure EditorRows where
  row_contents : List Line
  filename : Option (List Char)
deriving DecidableEq

/-- `EditorRows::number_of_rows`. -/
def EditorRows.number_of_rows (e : EditorRows) : Nat := e.row_contents.length

/-- `EditorRows::get_row`: the content of row `a` (callers guarantee the
index is in bounds; out of bounds we return the default empty row). -/
def EditorRows.get_row (e : EditorRows) (a : Nat) : List Char :=
  (e.row_contents.getD a default).row_content

/-- `EditorRows::get_editor_row`. -/
def EditorRows.get_editor_row (e : EditorRows) (a : Nat) : Line :=
  e.row_contents.getD a default

/-- `EditorRows::insert_row`: build a `Line` from `contents`, render it, and
insert it at position `a`. -/
def EditorRows.insert_row (e : EditorRows) (a : Nat) (contents : List Char) : EditorRows :=
  { e with row_contents := e.row_contents.insertIdx a (render_row ⟨contents, []⟩) }

/-- `EditorRows::join_adjacent_rows`: remove row `a` and append its content to
row `a - 1`, re-rendering the joined row. -/
def EditorRows.join_adjacent_rows (e : EditorRows) (a : Nat) : EditorRows :=
  let current_row := e.row_contents.getD a default
  let joined :=
    (e.row_contents.eraseIdx a).modify
      (fun previous_row =>
        render_row { previous_row with
          row_content := previous_row.row_content ++ current_row.row_content })
      (a - 1)
  { e with row_contents := joined }

/-- Strip one trailing carriage return, as Rust `str::lines` does from each
newline-terminated segment. -/
def stripTrailingCR (l : List Char) : List Char :=
  if l.getLast? = some '\r' then l.dropLast else l

/-- Accumulator form of Rust `str::lines` (used by `EditorRows::from_file`):
segments are cut at each newline; a newline-terminated segment also drops one
trailing carriage return; a final unterminated segment is kept only if
nonempty. -/
def rustLinesAux : List Char → List Char → List (List Char)
  | acc, [] => if acc.isEmpty then [] else [acc]
  | acc, c :: rest =>
    if c = '\n' then stripTrailingCR acc :: rustLinesAux [] rest
    else rustLinesAux (acc ++ [c]) rest

/-- Rust `str::lines`. -/
def rustLines (s : List Char) : List (List Char) := rustLinesAux [] s

/-- `EditorRows::from_file`, with the filesystem read abstracted: takes the
file name and the file's contents, splits the contents into lines, and
renders each resulting row. -/
def EditorRows.from_file (file : List Char) (file_contents : List Char) : EditorRows :=
  { filename := some file,
    row_contents := (rustLines file_contents).map (fun it => render_row ⟨it, []⟩) }

/-- The error cases of `EditorRows::save`: no file name set, or an underlying
I/O failure. -/
inductive SaveError
  | noFileName | ioError
deriving DecidableEq

/-- `EditorRows::save`, with the filesystem abstracted: `ioOk` says whether
the underlying open/truncate/write succeed. Returns the (unchanged) editor
rows, the contents written to disk (`none` when nothing was written), and the
result (bytes written on success). -/
def EditorRows.save (e : EditorRows) (ioOk : Bool) :
    EditorRows × Option (List Char) × Except SaveError Nat :=
  match e.filename with
  | none => (e, none, .error .noFileName)
  | some _ =>
    let contents := List.intercalate ['\n'] (e.row_contents.map Line.row_content)
    if ioOk then (e, some contents, .ok contents.length)
    else (e, none, .error .ioError)

/-- `Cursor` (the `Cursor` struct of main.rs): cursor position, screen
dimensions, scroll offsets and the derived render column. -/
@[ext]
structure Cursor where
  cursor_x : Nat
  cursor_y : Nat
  screen_rows : Nat
  screen_columns : Nat
  row_offset : Nat
  column_offset : Nat
  render_x : Nat
deriving DecidableEq, Repr

/-- `Cursor::get_render_x`: fold over the content before the cursor; a tab
advances `render_x + 7 - render_x % 8 + 1`, anything else by 1. -/
def Cursor.get_render_x (c : Cursor) (row : Line) : Nat :=
  (row.row_content.take c.cursor_x).foldl
    (fun render_x ch =>
      if ch = '\t' then render_x + 7 - render_x % 8 + 1 else render_x + 1) 0

/-- `Cursor::scroll`: recompute `render_x` and clamp `row_offset` /
`column_offset` so the cursor stays inside the visible window. -/
def Cursor.scroll (c : Cursor) (editor_rows : EditorRows) : Cursor :=
  let render_x :=
    if c.cursor_y < editor_rows.number_of_rows then
      c.get_render_x (editor_rows.get_editor_row c.cursor_y)
    else 0
  let row_offset := min c.row_offset c.cursor_y
  let row_offset :=
    if c.cursor_y ≥ row_offset + c.screen_rows then c.cursor_y - c.screen_rows + 1
    else row_offset
  let column_offset := min c.column_offset render_x
  let column_offset :=
    if render_x ≥ column_offset + c.screen_columns then render_x - c.screen_columns + 1
    else column_offset
  { c with render_x := render_x, row_offset := row_offset, column_offset := column_offset }

/-- `Cursor::move_cursor`: apply one movement key, then clamp `cursor_x` to
the length of the (possibly new) current row. -/
def Cursor.move_cursor (c : Cursor) (direction : KeyCode) (editor_rows : EditorRows) : Cursor :=
  let number_of_rows := editor_rows.number_of_rows
  let c :=
    match direction with
    | .up => { c with cursor_y := c.cursor_y - 1 }
    | .left =>
      if c.cursor_x ≠ 0 then
        { c with cursor_x := c.cursor_x - 1 }
      else if c.cursor_y > 0 then
        { c with cursor_y := c.cursor_y - 1,
                 cursor_x := (editor_rows.get_row (c.cursor_y - 1)).length }
      else c
    | .down =>
      if c.cursor_y < number_of_rows then { c with cursor_y := c.cursor_y + 1 } else c
    | .right =>
      if c.cursor_y < number_of_rows then
        let len := (editor_rows.get_row c.cursor_y).length
        if c.cursor_x < len then { c with cursor_x := c.cursor_x + 1 }
        else if c.cursor_x = len then { c with cursor_y := c.cursor_y + 1, cursor_x := 0 }
        else c
      else c
    | .charD =>
      if c.cursor_y < number_of_rows then
        { c with cursor_x := (editor_rows.get_row c.cursor_y).length }
      else c
    | .charA => { c with cursor_x := 0 }
  let row_len := if c.cursor_y < number_of_rows then (editor_rows.get_row c.cursor_y).length else 0
  { c with cursor_x := min c.cursor_x row_len }

/-- The parts of `Output` the editing commands touch: cursor controller and
editor rows. -/
structure Output where
  cursor_controller : Cursor
  editor_rows : EditorRows
deriving DecidableEq

/-- `Output::move_cursor`. -/
def Output.move_cursor (o : Output) (direction : KeyCode) : Output :=
  { o with cursor_controller := o.cursor_controller.move_cursor direction o.editor_rows }

/-- `Output::delete_char`: Backspace. No-op on the virtual row past the end
and at `(0,0)`; otherwise delete the character left of the cursor, or join
with the previous row when at column 0. -/
def Output.delete_char (o : Output) : Output :=
  if o.cursor_controller.cursor_y = o.editor_rows.number_of_rows then o
  else if o.cursor_controller.cursor_y = 0 ∧ o.cursor_controller.cursor_x = 0 then o
  else if 0 < o.cursor_controller.cursor_x then
    let deleted :=
      o.editor_rows.row_contents.modify
        (fun row => row.delete_char (o.cursor_controller.cursor_x - 1))
        o.cursor_controller.cursor_y
    { o with
      editor_rows := { o.editor_rows with row_contents := deleted },
      cursor_controller :=
        { o.cursor_controller with cursor_x := o.cursor_controller.cursor_x - 1 } }
  else
    let previous_row_content := o.editor_rows.get_row (o.cursor_controller.cursor_y - 1)
    { o with
      cursor_controller := { o.cursor_controller with
        cursor_x := previous_row_content.length,
        cursor_y := o.cursor_controller.cursor_y - 1 },
      editor_rows := o.editor_rows.join_adjacent_rows o.cursor_controller.cursor_y }

/-- `Output::insert_newline`: Enter. At column 0, insert a blank row at
`cursor_y`; otherwise split the current row at `cursor_x`. In both cases set
`cursor_x := 0` and increment `cursor_y`. -/
def Output.insert_newline (o : Output) : Output :=
  let cc := o.cursor_controller
  let e :=
    if cc.cursor_x = 0 then
      o.editor_rows.insert_row cc.cursor_y []
    else
      let current_row := o.editor_rows.get_editor_row cc.cursor_y
      let new_row_content := current_row.row_content.drop cc.cursor_x
      let current_row :=
        render_row { current_row with row_content := current_row.row_content.take cc.cursor_x }
      let e := { o.editor_rows with
        row_contents := o.editor_rows.row_contents.set cc.cursor_y current_row }
      e.insert_row (cc.cursor_y + 1) new_row_content
  { o with editor_rows := e,
           cursor_controller := { cc with cursor_x := 0, cursor_y := cc.cursor_y + 1 } }

/-- `Output::insert_char`: append an empty row first when the cursor is on the
virtual row past the end, then insert into the current row and advance the
cursor. -/
def Output.insert_char (o : Output) (ch : Char) : Output :=
  let e :=
    if o.cursor_controller.cursor_y = o.editor_rows.number_of_rows then
      o.editor_rows.insert_row o.editor_rows.number_of_rows []
    else o.editor_rows
  let inserted :=
    e.row_contents.modify
      (fun row => row.insert_char o.cursor_controller.cursor_x ch)
      o.cursor_controller.cursor_y
  let e := { e with row_contents := inserted }
  { o with editor_rows := e,
           cursor_controller :=
             { o.cursor_controller with cursor_x := o.cursor_controller.cursor_x + 1 } }

/-- Modelled from the spec: "each tab expands to spaces up to the next
display column that is a multiple of 8, advancing at least one column";
written from the spec's words for comparison with the source `render_row`. -/
def tabExpandSpec : List Char → Nat → List Char
  | [], _ => []
  | c :: rest, col =>
    if c = '\t' then
      let n := 8 - col % 8
      List.replicate n ' ' ++ tabExpandSpec rest (col + n)
    else c :: tabExpandSpec rest (col + 1)

/-- Every row's `render` equals the spec's tab expansion of its content. -/
def rowsConsistent (rows : List Line) : Prop :=
  ∀ l ∈ rows, l.render = tabExpandSpec l.row_content 0

instance (rows : List Line) : Decidable (rowsConsistent rows) :=
  inferInstanceAs (Decidable (∀ l ∈ rows, l.render = tabExpandSpec l.row_content 0))

/-- Exact behaviour of the padding loop, provided the fuel covers the number
of remaining iterations: it pushes spaces up to the next multiple of 8. -/
theorem padLoopGo_closed_form : ∀ (fuel index : Nat), (8 - index % 8) % 8 ≤ fuel →
    padLoopGo fuel index =
      (List.replicate ((8 - index % 8) % 8) ' ', index + (8 - index % 8) % 8) := by
  intro fuel
  induction fuel with
  | zero =>
    intro index h
    have hz : index % 8 = 0 := by omega
    simp [padLoopGo, hz]
  | succ fuel ih =>
    intro index h
    by_cases hz : index % 8 = 0
    · simp [padLoopGo, hz]
    · have h1 : (8 - (index + 1) % 8) % 8 ≤ fuel := by omega
      have h2 : (8 - index % 8) % 8 = (8 - (index + 1) % 8) % 8 + 1 := by omega
      simp only [padLoopGo, if_pos hz, ih (index + 1) h1]
      rw [h2, List.replicate_succ]
      have h3 : index + 1 + (8 - (index + 1) % 8) % 8 =
          index + ((8 - (index + 1) % 8) % 8 + 1) := by omega
      rw [h3]

/-- Closed form of `padLoop`; in particular the loop guard `index % 8 ≠ 0` is
false at the returned index, so the fuel of 8 is faithful to the source's
unbounded `while` loop. -/
theorem padLoop_closed_form (index : Nat) :
    padLoop index =
      (List.replicate ((8 - index % 8) % 8) ' ', index + (8 - index % 8) % 8) ∧
    (padLoop index).2 % 8 = 0 := by
  have h := padLoopGo_closed_form 8 index (by omega)
  refine ⟨h, ?_⟩
  rw [show padLoop index = padLoopGo 8 index from rfl, h]
  omega

/-- The character loop of `render_row` computes exactly the spec's
tab-expansion, for every starting column. -/
theorem renderLoop_eq_tabExpandSpec :
    ∀ (content : List Char) (index : Nat),
      renderLoop content index = tabExpandSpec content index := by
  intro content
  induction content with
  | nil => intro index; rfl
  | cons c rest ih =>
    intro index
    by_cases hc : c = '\t'
    · have hp := (padLoop_closed_form (index + 1)).1
      simp only [renderLoop, tabExpandSpec, if_pos hc, hp]
      have h1 : 8 - index % 8 = (8 - (index + 1) % 8) % 8 + 1 := by omega
      have h2 : index + 1 + (8 - (index + 1) % 8) % 8 = index + (8 - index % 8) := by omega
      rw [ih, h2, h1, List.replicate_succ]
      rfl
    · simp only [renderLoop, tabExpandSpec, if_neg hc, ih]

/-- `render_row` leaves `row_content` unchanged and makes `render` the spec's
tab-expansion of it. -/
theorem render_row_consistent (l : Line) :
    (render_row l).row_content = l.row_content ∧
    (render_row l).render = tabExpandSpec (render_row l).row_content 0 := by
  exact ⟨rfl, renderLoop_eq_tabExpandSpec l.row_content 0⟩

/-- C6 counterexample: rendering the buffer `["a\tb"]` yields `a` followed by
7 spaces and `b` (the tab fills columns 1-7 and `b` sits at column 8), not 8
spaces before the `b` as the claim states. -/
theorem tab_scenario_seven_spaces_not_eight :
    (render_row ⟨['a', '\t', 'b'], []⟩).render =
      'a' :: (List.replicate 7 ' ' ++ ['b']) ∧
    (render_row ⟨['a', '\t', 'b'], []⟩).render ≠
      'a' :: (List.replicate 8 ' ' ++ ['b']) := by
  constructor <;> decide

/-- C6 amended: for the one-line buffer `["a\tb"]` the rendered form is
`"a"` + 7 spaces + `"b"`: the tab expands to the 7 spaces filling display
columns 1 through 7, so `b` starts at display column 8, the next multiple of
8; equivalently the render agrees with the spec's tab expansion. -/
theorem tab_scenario_amended :
    (render_row ⟨['a', '\t', 'b'], []⟩).render =
      'a' :: (List.replicate 7 ' ' ++ ['b']) ∧
    (render_row ⟨['a', '\t', 'b'], []⟩).render =
      tabExpandSpec ['a', '\t', 'b'] 0 := by
  constructor <;> decide

/-- C7: with buffer `["abc", "def"]` and the cursor at `(line=1, col=0)`,
Backspace removes row 1, appends its content to row 0 giving `["abcdef"]`,
and leaves the cursor at `(line=0, col=3)`. -/
theorem backspace_join_scenario :
    Output.delete_char
        ⟨⟨0, 1, 10, 10, 0, 0, 0⟩,
         ⟨[render_row ⟨['a', 'b', 'c'], []⟩, render_row ⟨['d', 'e', 'f'], []⟩], none⟩⟩ =
      ⟨⟨3, 0, 10, 10, 0, 0, 0⟩,
       ⟨[render_row ⟨['a', 'b', 'c', 'd', 'e', 'f'], []⟩], none⟩⟩ := by
  decide

theorem modify_nil (g : Line → Line) (i : Nat) :
    ([] : List Line).modify g i = [] := by
  cases i <;> rfl

theorem modify_zero_cons (g : Line → Line) (a : Line) (l : List Line) :
    (a :: l).modify g 0 = g a :: l := rfl

theorem modify_succ_cons (g : Line → Line) (a : Line) (l : List Line) (i : Nat) :
    (a :: l).modify g (i + 1) = a :: l.modify g i := rfl

/-- Inserting a consistent line preserves the render invariant. -/
theorem rowsConsistent_insertIdx {rows : List Line} {l : Line} (i : Nat)
    (h : rowsConsistent rows) (hl : l.render = tabExpandSpec l.row_content 0) :
    rowsConsistent (rows.insertIdx i l) := by
  intro x hx
  by_cases hle : i ≤ rows.length
  · rcases (List.mem_insertIdx hle).1 hx with h1 | h1
    · subst h1; exact hl
    · exact h x h1
  · rw [List.insertIdx_of_length_lt _ _ _ (by omega)] at hx
    exact h x hx

/-- Removing a line preserves the render invariant. -/
theorem rowsConsistent_eraseIdx {rows : List Line} (i : Nat) (h : rowsConsistent rows) :
    rowsConsistent (rows.eraseIdx i) :=
  fun x hx => h x (List.mem_of_mem_eraseIdx hx)

/-- Overwriting a row with a consistent line preserves the render
invariant. -/
theorem rowsConsistent_set {rows : List Line} (i : Nat) {l : Line}
    (h : rowsConsistent rows) (hl : l.render = tabExpandSpec l.row_content 0) :
    rowsConsistent (rows.set i l) := by
  intro x hx
  rcases List.mem_or_eq_of_mem_set hx with h1 | h1
  · exact h x h1
  · subst h1; exact hl

/-- Modifying one row with a function whose output is always consistent
preserves the render invariant. -/
theorem rowsConsistent_modify_render (g : Line → Line)
    (hg : ∀ l, (g l).render = tabExpandSpec (g l).row_content 0) :
    ∀ (rows : List Line) (i : Nat),
      rowsConsistent rows → rowsConsistent (rows.modify g i) := by
  intro rows
  induction rows with
  | nil =>
    intro i h x hx
    rw [modify_nil] at hx
    cases hx
  | cons a l ih =>
    intro i h
    cases i with
    | zero =>
      rw [modify_zero_cons]
      intro x hx
      rcases List.mem_cons.1 hx with h1 | h1
      · subst h1; exact hg a
      · exact h x (List.mem_cons_of_mem _ h1)
    | succ i =>
      rw [modify_succ_cons]
      intro x hx
      rcases List.mem_cons.1 hx with h1 | h1
      · subst h1; exact h x (List.mem_cons_self x l)
      · exact ih i (fun y hy => h y (List.mem_cons_of_mem _ hy)) x h1

/-- C4: after each mutating operation — character insert, character delete,
row insert, line split on Enter, row join on Backspace — every row's `render`
equals the deterministic tab-expansion of its `row_content` (each tab expands
to spaces up to the next multiple-of-8 display column, advancing at least one
column); the rendered form is never stale when read. -/
theorem render_consistent_after_mutations :
    (∀ (l : Line) (a : Nat) (ch : Char),
      (l.insert_char a ch).render = tabExpandSpec (l.insert_char a ch).row_content 0) ∧
    (∀ (l : Line) (a : Nat),
      (l.delete_char a).render = tabExpandSpec (l.delete_char a).row_content 0) ∧
    (∀ (e : EditorRows) (a : Nat) (contents : List Char),
      rowsConsistent e.row_contents →
      rowsConsistent (e.insert_row a contents).row_contents) ∧
    (∀ o : Output,
      rowsConsistent o.editor_rows.row_contents →
      rowsConsistent o.insert_newline.editor_rows.row_contents) ∧
    (∀ (e : EditorRows) (a : Nat),
      rowsConsistent e.row_contents →
      rowsConsistent (e.join_adjacent_rows a).row_contents) := by
  refine ⟨?_, ?_, ?_, ?_, ?_⟩
  · intro l a ch
    exact (render_row_consistent _).2
  · intro l a
    exact (render_row_consistent _).2
  · intro e a contents h
    exact rowsConsistent_insertIdx a h (render_row_consistent _).2
  · intro o h
    unfold Output.insert_newline EditorRows.insert_row
    by_cases hx : o.cursor_controller.cursor_x = 0
    · simp only [if_pos hx]
      exact rowsConsistent_insertIdx _ h (render_row_consistent _).2
    · simp only [if_neg hx]
      exact rowsConsistent_insertIdx _
        (rowsConsistent_set _ h (render_row_consistent _).2) (render_row_consistent _).2
  · intro e a h
    unfold EditorRows.join_adjacent_rows
    exact rowsConsistent_modify_render _ (fun l => (render_row_consistent _).2) _ _
      (rowsConsistent_eraseIdx a h)

/-- Witness for C4: the row-insert case at a concrete buffer containing a
tab. -/
theorem render_consistent_after_mutations_witness :
    rowsConsistent
      ((EditorRows.mk [render_row ⟨['a', '\t'], []⟩] none).insert_row 0
        ['x', '\t', 'y']).row_contents :=
  render_consistent_after_mutations.2.2.1
    (EditorRows.mk [render_row ⟨['a', '\t'], []⟩] none) 0 ['x', '\t', 'y'] (by decide)

/-- C3: for every editor state with positive viewport dimensions, after
`Cursor::scroll` (the scroll-reconciliation step) the invariants
`row_offset ≤ cursor_y < row_offset + screen_rows` and
`column_offset ≤ render_x < column_offset + screen_columns` hold. -/
theorem scroll_viewport_containment (c : Cursor) (e : EditorRows)
    (hr : 1 ≤ c.screen_rows) (hc : 1 ≤ c.screen_columns) :
    (c.scroll e).row_offset ≤ (c.scroll e).cursor_y ∧
    (c.scroll e).cursor_y < (c.scroll e).row_offset + (c.scroll e).screen_rows ∧
    (c.scroll e).column_offset ≤ (c.scroll e).render_x ∧
    (c.scroll e).render_x < (c.scroll e).column_offset + (c.scroll e).screen_columns := by
  obtain ⟨x, y, sr, sc, ro, co, rx⟩ := c
  simp only [Cursor.scroll] at *
  split_ifs <;> refine ⟨?_, ?_, ?_, ?_⟩ <;> omega

/-- Witness for C3 at a concrete state that forces both offsets to move. -/
theorem scroll_viewport_containment_witness :
    ((Cursor.mk 2 5 2 2 0 0 0).scroll
        (EditorRows.mk [render_row ⟨['a', '\t', 'b'], []⟩] none)).row_offset ≤
      ((Cursor.mk 2 5 2 2 0 0 0).scroll
        (EditorRows.mk [render_row ⟨['a', '\t', 'b'], []⟩] none)).cursor_y ∧
    ((Cursor.mk 2 5 2 2 0 0 0).scroll
        (EditorRows.mk [render_row ⟨['a', '\t', 'b'], []⟩] none)).cursor_y <
      ((Cursor.mk 2 5 2 2 0 0 0).scroll
        (EditorRows.mk [render_row ⟨['a', '\t', 'b'], []⟩] none)).row_offset +
      ((Cursor.mk 2 5 2 2 0 0 0).scroll
        (EditorRows.mk [render_row ⟨['a', '\t', 'b'], []⟩] none)).screen_rows ∧
    ((Cursor.mk 2 5 2 2 0 0 0).scroll
        (EditorRows.mk [render_row ⟨['a', '\t', 'b'], []⟩] none)).column_offset ≤
      ((Cursor.mk 2 5 2 2 0 0 0).scroll
        (EditorRows.mk [render_row ⟨['a', '\t', 'b'], []⟩] none)).render_x ∧
    ((Cursor.mk 2 5 2 2 0 0 0).scroll
        (EditorRows.mk [render_row ⟨['a', '\t', 'b'], []⟩] none)).render_x <
      ((Cursor.mk 2 5 2 2 0 0 0).scroll
        (EditorRows.mk [render_row ⟨['a', '\t', 'b'], []⟩] none)).column_offset +
      ((Cursor.mk 2 5 2 2 0 0 0).scroll
        (EditorRows.mk [render_row ⟨['a', '\t', 'b'], []⟩] none)).screen_columns :=
  scroll_viewport_containment (Cursor.mk 2 5 2 2 0 0 0)
    (EditorRows.mk [render_row ⟨['a', '\t', 'b'], []⟩] none) (by decide) (by decide)

theorem scroll_cursor_x (c : Cursor) (e : EditorRows) :
    (c.scroll e).cursor_x = c.cursor_x := rfl

theorem scroll_cursor_y (c : Cursor) (e : EditorRows) :
    (c.scroll e).cursor_y = c.cursor_y := rfl

theorem scroll_screen_rows (c : Cursor) (e : EditorRows) :
    (c.scroll e).screen_rows = c.screen_rows := rfl

theorem scroll_screen_columns (c : Cursor) (e : EditorRows) :
    (c.scroll e).screen_columns = c.screen_columns := rfl

theorem scroll_render_x (c : Cursor) (e : EditorRows) :
    (c.scroll e).render_x =
      (if c.cursor_y < e.number_of_rows then
        c.get_render_x (e.get_editor_row c.cursor_y)
       else 0) := rfl

theorem scroll_row_offset (c : Cursor) (e : EditorRows) :
    (c.scroll e).row_offset =
      (if c.cursor_y ≥ min c.row_offset c.cursor_y + c.screen_rows then
        c.cursor_y - c.screen_rows + 1
       else min c.row_offset c.cursor_y) := rfl

theorem scroll_column_offset (c : Cursor) (e : EditorRows) :
    (c.scroll e).column_offset =
      (if (if c.cursor_y < e.number_of_rows then
            c.get_render_x (e.get_editor_row c.cursor_y)
           else 0) ≥
          min c.column_offset
            (if c.cursor_y < e.number_of_rows then
              c.get_render_x (e.get_editor_row c.cursor_y)
             else 0) + c.screen_columns then
        (if c.cursor_y < e.number_of_rows then
          c.get_render_x (e.get_editor_row c.cursor_y)
         else 0) - c.screen_columns + 1
       else
        min c.column_offset
          (if c.cursor_y < e.number_of_rows then
            c.get_render_x (e.get_editor_row c.cursor_y)
           else 0)) := rfl

/-- C9: `Cursor::scroll` is idempotent — running the scroll-reconciliation
step twice with no intervening change produces the same `row_offset`,
`column_offset` and `render_x` as running it once. -/
theorem scroll_idempotent (c : Cursor) (e : EditorRows) :
    (c.scroll e).scroll e = c.scroll e := by
  have hrx : (c.scroll e).get_render_x (e.get_editor_row c.cursor_y) =
      c.get_render_x (e.get_editor_row c.cursor_y) := rfl
  refine Cursor.ext rfl rfl rfl rfl ?_ ?_ ?_
  · simp only [scroll_row_offset, scroll_cursor_y, scroll_screen_rows]
    split_ifs <;> omega
  · simp only [scroll_column_offset, scroll_cursor_y, scroll_screen_columns, hrx]
    generalize (if c.cursor_y < e.number_of_rows then
      c.get_render_x (e.get_editor_row c.cursor_y) else 0) = X
    split_ifs <;> omega
  · simp only [scroll_render_x, scroll_cursor_y, hrx]

/-- C1 counterexample: with buffer `["abc"]`, Right at the end of the last
line `(0,3)` moves the cursor (to `(1,0)`, the virtual row past the end), and
Down on the last line `(0,0)` moves the cursor as well — neither is the no-op
the claim states. -/
theorem right_and_down_at_last_line_move :
    (Output.move_cursor
        ⟨⟨3, 0, 10, 10, 0, 0, 0⟩, ⟨[render_row ⟨['a', 'b', 'c'], []⟩], none⟩⟩ .right ≠
      ⟨⟨3, 0, 10, 10, 0, 0, 0⟩, ⟨[render_row ⟨['a', 'b', 'c'], []⟩], none⟩⟩) ∧
    ((Output.move_cursor
        ⟨⟨3, 0, 10, 10, 0, 0, 0⟩, ⟨[render_row ⟨['a', 'b', 'c'], []⟩], none⟩⟩
        .right).cursor_controller.cursor_y = 1) ∧
    (Output.move_cursor
        ⟨⟨0, 0, 10, 10, 0, 0, 0⟩, ⟨[render_row ⟨['a', 'b', 'c'], []⟩], none⟩⟩ .down ≠
      ⟨⟨0, 0, 10, 10, 0, 0, 0⟩, ⟨[render_row ⟨['a', 'b', 'c'], []⟩], none⟩⟩) := by
  refine ⟨by decide, by decide, by decide⟩

/-- C1 amended: Backspace at `(0,0)` is a no-op and Left at `(0,0)` is a
no-op, as claimed; but the Right and Down no-ops hold at the virtual row one
past the last line (`cursor_y = number_of_rows`, where `cursor_x = 0`), not
at the last line itself: Right at the end of the last line and Down on the
last line move the cursor to `(number_of_rows, 0)`. -/
theorem boundary_noops_amended (o : Output) :
    (o.cursor_controller.cursor_y = 0 → o.cursor_controller.cursor_x = 0 →
      o.delete_char = o) ∧
    (o.cursor_controller.cursor_y = 0 → o.cursor_controller.cursor_x = 0 →
      o.move_cursor .left = o) ∧
    (o.cursor_controller.cursor_y = o.editor_rows.number_of_rows →
      o.cursor_controller.cursor_x = 0 → o.move_cursor .right = o) ∧
    (o.cursor_controller.cursor_y = o.editor_rows.number_of_rows →
      o.cursor_controller.cursor_x = 0 → o.move_cursor .down = o) := by
  obtain ⟨⟨x, y, sr, sc, ro, co, rx⟩, e⟩ := o
  refine ⟨?_, ?_, ?_, ?_⟩
  · intro hy hx
    replace hy : y = 0 := hy
    replace hx : x = 0 := hx
    subst hy; subst hx
    unfold Output.delete_char
    split_ifs with h1 h2
    · rfl
    · rfl
    · exact absurd ⟨rfl, rfl⟩ h2
    · exact absurd ⟨rfl, rfl⟩ h2
  · intro hy hx
    replace hy : y = 0 := hy
    replace hx : x = 0 := hx
    subst hy; subst hx
    simp [Output.move_cursor, Cursor.move_cursor]
  · intro hy hx
    replace hy : y = e.number_of_rows := hy
    replace hx : x = 0 := hx
    subst hy; subst hx
    simp [Output.move_cursor, Cursor.move_cursor]
  · intro hy hx
    replace hy : y = e.number_of_rows := hy
    replace hx : x = 0 := hx
    subst hy; subst hx
    simp [Output.move_cursor, Cursor.move_cursor]

/-- Witness for C1 at the empty buffer, where row 0 is also the virtual row
past the end. -/
theorem boundary_noops_amended_witness :
    (Output.delete_char ⟨⟨0, 0, 5, 5, 0, 0, 0⟩, ⟨[], none⟩⟩ =
      ⟨⟨0, 0, 5, 5, 0, 0, 0⟩, ⟨[], none⟩⟩) ∧
    (Output.move_cursor ⟨⟨0, 0, 5, 5, 0, 0, 0⟩, ⟨[], none⟩⟩ .left =
      ⟨⟨0, 0, 5, 5, 0, 0, 0⟩, ⟨[], none⟩⟩) ∧
    (Output.move_cursor ⟨⟨0, 0, 5, 5, 0, 0, 0⟩, ⟨[], none⟩⟩ .right =
      ⟨⟨0, 0, 5, 5, 0, 0, 0⟩, ⟨[], none⟩⟩) ∧
    (Output.move_cursor ⟨⟨0, 0, 5, 5, 0, 0, 0⟩, ⟨[], none⟩⟩ .down =
      ⟨⟨0, 0, 5, 5, 0, 0, 0⟩, ⟨[], none⟩⟩) :=
  ⟨(boundary_noops_amended ⟨⟨0, 0, 5, 5, 0, 0, 0⟩, ⟨[], none⟩⟩).1 rfl rfl,
   (boundary_noops_amended ⟨⟨0, 0, 5, 5, 0, 0, 0⟩, ⟨[], none⟩⟩).2.1 rfl rfl,
   (boundary_noops_amended ⟨⟨0, 0, 5, 5, 0, 0, 0⟩, ⟨[], none⟩⟩).2.2.1 rfl rfl,
   (boundary_noops_amended ⟨⟨0, 0, 5, 5, 0, 0, 0⟩, ⟨[], none⟩⟩).2.2.2 rfl rfl⟩

/-- C8: `save` with no file name set fails with the `NoFileName` error and
writes nothing; and every save call — failing or succeeding — returns the
in-memory editor rows unchanged. -/
theorem save_no_filename_and_preserves_rows (e : EditorRows) (ioOk : Bool) :
    (e.filename = none →
      e.save ioOk = (e, none, Except.error SaveError.noFileName)) ∧
    (e.save ioOk).1 = e := by
  constructor
  · intro h
    simp [EditorRows.save, h]
  · rcases h : e.filename with _ | f <;> cases ioOk <;> simp [EditorRows.save, h]

/-- Witness for C8 at an unnamed two-row buffer. -/
theorem save_no_filename_witness :
    (EditorRows.mk [render_row ⟨['a'], []⟩, render_row ⟨[], []⟩] none).save true =
      (EditorRows.mk [render_row ⟨['a'], []⟩, render_row ⟨[], []⟩] none, none,
        Except.error SaveError.noFileName) ∧
    ((EditorRows.mk [render_row ⟨['a'], []⟩, render_row ⟨[], []⟩] none).save true).1 =
      EditorRows.mk [render_row ⟨['a'], []⟩, render_row ⟨[], []⟩] none :=
  ⟨(save_no_filename_and_preserves_rows
      (EditorRows.mk [render_row ⟨['a'], []⟩, render_row ⟨[], []⟩] none) true).1 rfl,
   (save_no_filename_and_preserves_rows
      (EditorRows.mk [render_row ⟨['a'], []⟩, render_row ⟨[], []⟩] none) true).2⟩

theorem modify_append_length (g : Line → Line) :
    ∀ (xs : List Line) (b : Line), (xs ++ [b]).modify g xs.length = xs ++ [g b] := by
  intro xs
  induction xs with
  | nil => intro b; rfl
  | cons a l ih =>
    intro b
    simp only [List.cons_append, List.length_cons, modify_succ_cons, ih]

/-- C10: inserting a character with the cursor on the virtual row one past
the last line (`cursor_y = number_of_rows`, hence `cursor_x = 0`) first
appends a new empty row and then inserts into it: the insertion succeeds,
the row count grows by exactly one, the buffer gains `[ch]` as its last row,
and the cursor ends at column 1 of that new last row. -/
theorem insert_char_on_virtual_row (o : Output) (ch : Char)
    (hy : o.cursor_controller.cursor_y = o.editor_rows.number_of_rows)
    (hx : o.cursor_controller.cursor_x = 0) :
    (o.insert_char ch).editor_rows.number_of_rows = o.editor_rows.number_of_rows + 1 ∧
    (o.insert_char ch).editor_rows.row_contents.map Line.row_content =
      o.editor_rows.row_contents.map Line.row_content ++ [[ch]] ∧
    (o.insert_char ch).cursor_controller.cursor_y = o.editor_rows.number_of_rows ∧
    (o.insert_char ch).cursor_controller.cursor_x = 1 := by
  have h1 : (o.insert_char ch).editor_rows.row_contents =
      o.editor_rows.row_contents ++ [Line.insert_char (render_row ⟨[], []⟩) 0 ch] := by
    unfold Output.insert_char EditorRows.insert_row
    rw [if_pos hy]
    show (((o.editor_rows.row_contents.insertIdx o.editor_rows.number_of_rows
        (render_row ⟨[], []⟩))).modify
          (fun row => row.insert_char o.cursor_controller.cursor_x ch)
          o.cursor_controller.cursor_y) =
      o.editor_rows.row_contents ++ [Line.insert_char (render_row ⟨[], []⟩) 0 ch]
    rw [show o.editor_rows.number_of_rows = o.editor_rows.row_contents.length from rfl,
      List.insertIdx_length_self, hy, hx,
      show o.editor_rows.number_of_rows = o.editor_rows.row_contents.length from rfl,
      modify_append_length]
  refine ⟨?_, ?_, ?_, ?_⟩
  · show (o.insert_char ch).editor_rows.row_contents.length =
      o.editor_rows.row_contents.length + 1
    rw [h1]
    simp
  · rw [h1]
    simp [Line.insert_char]
    rfl
  · exact hy
  · show o.cursor_controller.cursor_x + 1 = 1
    omega

/-- Witness for C10: cursor at `(1, 0)` on the one-row buffer `["a"]`. -/
theorem insert_char_on_virtual_row_witness :
    (Output.insert_char ⟨⟨0, 1, 5, 5, 0, 0, 0⟩,
        ⟨[render_row ⟨['a'], []⟩], none⟩⟩ 'x').editor_rows.row_contents.map Line.row_content =
      (EditorRows.mk [render_row ⟨['a'], []⟩] none).row_contents.map Line.row_content
        ++ [['x']] :=
  (insert_char_on_virtual_row
    ⟨⟨0, 1, 5, 5, 0, 0, 0⟩, ⟨[render_row ⟨['a'], []⟩], none⟩⟩ 'x' rfl rfl).2.1

/-- C5 counterexample: Enter at column 0 of buffer `["abc"]` inserts the
blank row at index 0 and moves the cursor to row 1, which still holds
`"abc"`: the cursor does not end on the row created by the keypress. -/
theorem enter_at_col0_cursor_not_on_new_row :
    (Output.insert_newline ⟨⟨0, 0, 10, 10, 0, 0, 0⟩,
        ⟨[render_row ⟨['a', 'b', 'c'], []⟩], none⟩⟩).editor_rows.row_contents.map
        Line.row_content = [[], ['a', 'b', 'c']] ∧
    (Output.insert_newline ⟨⟨0, 0, 10, 10, 0, 0, 0⟩,
        ⟨[render_row ⟨['a', 'b', 'c'], []⟩], none⟩⟩).cursor_controller.cursor_y = 1 ∧
    (Output.insert_newline ⟨⟨0, 0, 10, 10, 0, 0, 0⟩,
        ⟨[render_row ⟨['a', 'b', 'c'], []⟩], none⟩⟩).editor_rows.get_row 1 ≠ [] := by
  refine ⟨by decide, by decide, by decide⟩

theorem set_insertIdx_succ :
    ∀ (xs : List Line) (y : Nat) (a b : Line), y < xs.length →
      (xs.set y a).insertIdx (y + 1) b = xs.take y ++ a :: b :: xs.drop (y + 1) := by
  intro xs
  induction xs with
  | nil => intro y a b h; exact absurd h (Nat.not_lt_zero y)
  | cons c l ih =>
    intro y a b h
    cases y with
    | zero =>
      simp [List.set_cons_zero, List.insertIdx_succ_cons, List.insertIdx_zero]
    | succ y =>
      simp only [List.set_cons_succ, List.insertIdx_succ_cons, List.take_succ_cons,
        List.drop_succ_cons, List.cons_append]
      rw [ih y a b (by simpa using h)]

theorem getD_append_cons_cons (xs : List Line) (p s : Line) (rest : List Line) (y : Nat)
    (h : xs.length = y) : (xs ++ p :: s :: rest).getD (y + 1) default = s := by
  subst h
  induction xs with
  | nil => rfl
  | cons a l ih => simpa using ih

theorem render_row_row_content (l : Line) : (render_row l).row_content = l.row_content := rfl

theorem get_row_eq_get_editor_row (e : EditorRows) (a : Nat) :
    e.get_row a = (e.get_editor_row a).row_content := rfl

/-- C5 amended: pressing Enter always sets the cursor to column 0 of row
`cursor_y + 1`. With the cursor at a nonzero column of a real row, the row is
split at the cursor and the cursor ends on the newly created suffix row, as
claimed; but at column 0 the blank row is inserted at `cursor_y`, above the
current line, and the cursor ends on the original line (pushed down one
index), not on the created blank row. -/
theorem insert_newline_amended (o : Output) :
    (o.cursor_controller.cursor_x = 0 →
      o.insert_newline.editor_rows.row_contents =
        o.editor_rows.row_contents.insertIdx o.cursor_controller.cursor_y
          (render_row ⟨[], []⟩) ∧
      o.insert_newline.cursor_controller.cursor_y = o.cursor_controller.cursor_y + 1 ∧
      o.insert_newline.cursor_controller.cursor_x = 0) ∧
    (o.cursor_controller.cursor_x ≠ 0 →
      o.cursor_controller.cursor_y < o.editor_rows.number_of_rows →
      o.insert_newline.editor_rows.row_contents.map Line.row_content =
        (o.editor_rows.row_contents.map Line.row_content).take o.cursor_controller.cursor_y
          ++ (o.editor_rows.get_row o.cursor_controller.cursor_y).take
              o.cursor_controller.cursor_x
          :: (o.editor_rows.get_row o.cursor_controller.cursor_y).drop
              o.cursor_controller.cursor_x
          :: (o.editor_rows.row_contents.map Line.row_content).drop
              (o.cursor_controller.cursor_y + 1) ∧
      o.insert_newline.cursor_controller.cursor_y = o.cursor_controller.cursor_y + 1 ∧
      o.insert_newline.cursor_controller.cursor_x = 0 ∧
      o.insert_newline.editor_rows.get_row o.insert_newline.cursor_controller.cursor_y =
        (o.editor_rows.get_row o.cursor_controller.cursor_y).drop
          o.cursor_controller.cursor_x) := by
  constructor
  · intro hx
    refine ⟨?_, rfl, rfl⟩
    unfold Output.insert_newline EditorRows.insert_row
    dsimp only
    rw [if_pos hx]
  · intro hx hy
    have hrows : o.insert_newline.editor_rows.row_contents =
        o.editor_rows.row_contents.take o.cursor_controller.cursor_y
          ++ render_row { o.editor_rows.get_editor_row o.cursor_controller.cursor_y with
                row_content := (o.editor_rows.get_editor_row
                  o.cursor_controller.cursor_y).row_content.take
                    o.cursor_controller.cursor_x }
          :: render_row ⟨(o.editor_rows.get_editor_row
                o.cursor_controller.cursor_y).row_content.drop
                  o.cursor_controller.cursor_x, []⟩
          :: o.editor_rows.row_contents.drop (o.cursor_controller.cursor_y + 1) := by
      unfold Output.insert_newline EditorRows.insert_row
      dsimp only
      rw [if_neg hx]
      exact set_insertIdx_succ _ _ _ _ hy
    refine ⟨?_, rfl, rfl, ?_⟩
    · rw [hrows]
      simp only [List.map_append, List.map_cons, render_row_row_content,
        get_row_eq_get_editor_row, List.map_take, List.map_drop]
    · show (o.insert_newline.editor_rows.row_contents.getD
          (o.cursor_controller.cursor_y + 1) default).row_content = _
      rw [hrows, getD_append_cons_cons _ _ _ _ _ (by
        simp [List.length_take]
        exact Nat.le_of_lt hy)]
      rfl

/-- Witness for C5: the split case at the spec's scenario — buffer
`["abc", "def"]`, cursor `(0,3)` — and the column-0 case at buffer `["abc"]`,
cursor `(0,0)`. -/
theorem insert_newline_amended_witness :
    ((Output.insert_newline ⟨⟨3, 0, 10, 10, 0, 0, 0⟩,
        ⟨[render_row ⟨['a', 'b', 'c'], []⟩, render_row ⟨['d', 'e', 'f'], []⟩],
          none⟩⟩).cursor_controller.cursor_y = 0 + 1) ∧
    ((Output.insert_newline ⟨⟨0, 0, 10, 10, 0, 0, 0⟩,
        ⟨[render_row ⟨['a', 'b', 'c'], []⟩], none⟩⟩).cursor_controller.cursor_y = 0 + 1) :=
  ⟨((insert_newline_amended ⟨⟨3, 0, 10, 10, 0, 0, 0⟩,
      ⟨[render_row ⟨['a', 'b', 'c'], []⟩, render_row ⟨['d', 'e', 'f'], []⟩],
        none⟩⟩).2 (by decide) (by decide)).2.1,
   ((insert_newline_amended ⟨⟨0, 0, 10, 10, 0, 0, 0⟩,
      ⟨[render_row ⟨['a', 'b', 'c'], []⟩], none⟩⟩).1 rfl).2.1⟩

theorem rustLinesAux_no_newline (l : List Char) :
    '\n' ∉ l → ∀ acc : List Char,
      rustLinesAux acc l = if acc ++ l = [] then [] else [acc ++ l] := by
  induction l with
  | nil =>
    intro _ acc
    cases acc <;> simp [rustLinesAux]
  | cons c rest ih =>
    intro h acc
    have hc : c ≠ '\n' := fun hh => h (hh ▸ List.mem_cons_self c rest)
    have hr : '\n' ∉ rest := fun hh => h (List.mem_cons_of_mem c hh)
    simp only [rustLinesAux, if_neg hc]
    rw [ih hr (acc ++ [c])]
    simp [List.append_assoc]

theorem rustLinesAux_split (l : List Char) :
    '\n' ∉ l → ∀ (acc rest : List Char),
      rustLinesAux acc (l ++ '\n' :: rest) =
        stripTrailingCR (acc ++ l) :: rustLinesAux [] rest := by
  induction l with
  | nil =>
    intro _ acc rest
    simp [rustLinesAux]
  | cons c cs ih =>
    intro h acc rest
    have hc : c ≠ '\n' := fun hh => h (hh ▸ List.mem_cons_self c cs)
    have hr : '\n' ∉ cs := fun hh => h (List.mem_cons_of_mem c hh)
    simp only [List.cons_append, rustLinesAux, if_neg hc, List.append_eq]
    rw [ih hr (acc ++ [c]) rest]
    simp [List.append_assoc]

theorem stripTrailingCR_eq_self {l : List Char} (h : '\r' ∉ l) :
    stripTrailingCR l = l := by
  unfold stripTrailingCR
  rw [if_neg]
  intro hc
  exact h (List.mem_of_getLast?_eq_some hc)

/-- Joining lines with `'\n'` and re-splitting with Rust `lines()` is the
identity, provided no line contains a newline or carriage return and the
last line (if any) is nonempty. -/
theorem rustLines_intercalate (lines : List (List Char))
    (h1 : ∀ l ∈ lines, '\n' ∉ l ∧ '\r' ∉ l)
    (h2 : lines.getLast? ≠ some []) :
    rustLines (List.intercalate ['\n'] lines) = lines := by
  induction lines with
  | nil => rfl
  | cons l ls ih =>
    cases ls with
    | nil =>
      have hl : '\n' ∉ l := (h1 l (List.mem_cons_self l [])).1
      have hne : l ≠ [] := by
        intro hl0
        exact h2 (by simp [hl0])
      rw [show List.intercalate ['\n'] [l] = l by simp [List.intercalate]]
      unfold rustLines
      rw [rustLinesAux_no_newline l hl []]
      simp [hne]
    | cons m ms =>
      have hl : '\n' ∉ l := (h1 l (List.mem_cons_self l (m :: ms))).1
      have hlr : '\r' ∉ l := (h1 l (List.mem_cons_self l (m :: ms))).2
      have hcons : List.intercalate ['\n'] (l :: m :: ms) =
          l ++ '\n' :: List.intercalate ['\n'] (m :: ms) := by
        simp [List.intercalate, List.intersperse_cons_cons]
      unfold rustLines
      rw [hcons, rustLinesAux_split l hl [] (List.intercalate ['\n'] (m :: ms)),
        List.nil_append, stripTrailingCR_eq_self hlr]
      have := ih (fun x hx => h1 x (List.mem_cons_of_mem l hx)) (by simpa using h2)
      unfold rustLines at this
      rw [this]

/-- C2 counterexample: the one-line buffer `[""]` has no newline characters
in any line content, yet saving it writes the empty file, which loads back as
the empty buffer `[]`, not `[""]`. -/
theorem roundtrip_fails_on_trailing_empty_line :
    ((EditorRows.mk [render_row ⟨[], []⟩] (some ['f'])).save true).2.1 = some [] ∧
    (EditorRows.from_file ['f'] []).row_contents.map Line.row_content ≠
      (EditorRows.mk [render_row ⟨[], []⟩] (some ['f'])).row_contents.map
        Line.row_content := by
  refine ⟨by decide, by decide⟩

/-- C2 amended: for every buffer whose line contents contain no newline
(`'\n'`) or carriage-return (`'\r'`) characters and whose last line (if the
buffer is nonempty) is itself nonempty, saving (joining the row contents with
`'\n'`) and loading the written file back (splitting with Rust `lines()`)
yields the identical sequence of line contents. A trailing empty line is
lost, and a trailing `'\r'` on a non-final line would be stripped, because
`lines()` treats `'\n'` as a terminator and drops a `'\r'` before it. -/
theorem save_load_roundtrip_amended (e : EditorRows) (name : List Char)
    (h1 : ∀ l ∈ e.row_contents, '\n' ∉ l.row_content ∧ '\r' ∉ l.row_content)
    (h2 : (e.row_contents.map Line.row_content).getLast? ≠ some [])
    (hf : e.filename.isSome) :
    (e.save true).2.1 =
      some (List.intercalate ['\n'] (e.row_contents.map Line.row_content)) ∧
    (EditorRows.from_file name
        (List.intercalate ['\n']
          (e.row_contents.map Line.row_content))).row_contents.map Line.row_content =
      e.row_contents.map Line.row_content := by
  constructor
  · rcases hfn : e.filename with _ | f
    · rw [hfn] at hf; cases hf
    · simp [EditorRows.save, hfn]
  · have hmap : (EditorRows.from_file name
        (List.intercalate ['\n']
          (e.row_contents.map Line.row_content))).row_contents.map Line.row_content =
        rustLines (List.intercalate ['\n'] (e.row_contents.map Line.row_content)) := by
      unfold EditorRows.from_file
      simp [List.map_map, Function.comp_def, render_row_row_content]
    rw [hmap]
    apply rustLines_intercalate
    · intro l hl
      rcases List.mem_map.1 hl with ⟨x, hx, rfl⟩
      exact h1 x hx
    · exact h2

/-- Witness for C2 at the named two-line buffer `["ab", "c"]`. -/
theorem save_load_roundtrip_amended_witness :
    (EditorRows.from_file ['g']
        (List.intercalate ['\n']
          ((EditorRows.mk [render_row ⟨['a', 'b'], []⟩, render_row ⟨['c'], []⟩]
            (some ['f'])).row_contents.map Line.row_content))).row_contents.map
        Line.row_content =
      (EditorRows.mk [render_row ⟨['a', 'b'], []⟩, render_row ⟨['c'], []⟩]
        (some ['f'])).row_contents.map Line.row_content :=
  (save_load_roundtrip_amended
    (EditorRows.mk [render_row ⟨['a', 'b'], []⟩, render_row ⟨['c'], []⟩] (some ['f']))
    ['g'] (by decide) (by decide) (by decide)).2
